import Mathlib

/-!
Verification of the "Schema & Object Utilities" module (src/src/utils.ts).

The module is a flat collection of pure/near-pure utility functions used in
an OpenAPI request/response validation workflow.  We give a shallow
embedding: JavaScript values that can flow through `JSON.stringify` /
`JSON.parse` are modelled by the inductive type `JsValue` (JSON values plus
markers for `undefined` and function values, which are not
JSON-serializable); JavaScript string-keyed objects are modelled by
association lists with JS assignment semantics (updating an existing key in
place, appending a new key); the external Ajv validation engine — a
collaborator, not part of the repository — is abstracted as a function
parameter, so all theorems about `matchSchema` hold for every engine.
-/

namespace Utils

/-- JavaScript runtime values relevant to this module: the JSON values
(null, booleans, numbers, strings, arrays, string-keyed objects) plus
`undef` (the `undefined` value) and `fn` (an arbitrary function value),
which are not JSON-serializable.  Numbers are modelled by integers. -/
inductive JsValue where
  | null : JsValue
  | bool (b : Bool) : JsValue
  | num (n : Int) : JsValue
  | str (s : String) : JsValue
  | arr (items : List JsValue) : JsValue
  | obj (entries : List (String × JsValue)) : JsValue
  | undef : JsValue
  | fn : JsValue
deriving Repr

mutual

def JsValue.beq : JsValue → JsValue → Bool
  | .null, .null => true
  | .bool a, .bool b => a == b
  | .num a, .num b => a == b
  | .str a, .str b => a == b
  | .arr a, .arr b => JsValue.beqList a b
  | .obj a, .obj b => JsValue.beqEntries a b
  | .undef, .undef => true
  | .fn, .fn => true
  | _, _ => false

def JsValue.beqList : List JsValue → List JsValue → Bool
  | [], [] => true
  | a :: as, b :: bs => JsValue.beq a b && JsValue.beqList as bs
  | _, _ => false

def JsValue.beqEntries : List (String × JsValue) → List (String × JsValue) → Bool
  | [], [] => true
  | (k, v) :: as, (k', v') :: bs => k == k' && JsValue.beq v v' && JsValue.beqEntries as bs
  | _, _ => false

end

mutual

theorem JsValue.beq_eq : ∀ a b : JsValue, JsValue.beq a b = true → a = b
  | .null, .null, _ => rfl
  | .bool a, .bool b, h => by simp [JsValue.beq] at h; simp [h]
  | .num a, .num b, h => by simp [JsValue.beq] at h; simp [h]
  | .str a, .str b, h => by simp [JsValue.beq] at h; simp [h]
  | .arr a, .arr b, h => by
      simp only [JsValue.beq] at h
      exact congrArg JsValue.arr (JsValue.beqList_eq a b h)
  | .obj a, .obj b, h => by
      simp only [JsValue.beq] at h
      exact congrArg JsValue.obj (JsValue.beqEntries_eq a b h)
  | .undef, .undef, _ => rfl
  | .fn, .fn, _ => rfl

theorem JsValue.beqList_eq : ∀ a b : List JsValue, JsValue.beqList a b = true → a = b
  | [], [], _ => rfl
  | a :: as, b :: bs, h => by
      simp only [JsValue.beqList, Bool.and_eq_true] at h
      rw [JsValue.beq_eq a b h.1, JsValue.beqList_eq as bs h.2]

theorem JsValue.beqEntries_eq :
    ∀ a b : List (String × JsValue), JsValue.beqEntries a b = true → a = b
  | [], [], _ => rfl
  | (k, v) :: as, (k', v') :: bs, h => by
      simp only [JsValue.beqEntries, Bool.and_eq_true] at h
      rw [beq_iff_eq] at h
      rw [h.1.1, JsValue.beq_eq v v' h.1.2, JsValue.beqEntries_eq as bs h.2]

end

mutual

theorem JsValue.beq_refl : ∀ a : JsValue, JsValue.beq a a = true
  | .null => rfl
  | .bool a => by simp [JsValue.beq]
  | .num a => by simp [JsValue.beq]
  | .str a => by simp [JsValue.beq]
  | .arr a => JsValue.beqList_refl a
  | .obj a => JsValue.beqEntries_refl a
  | .undef => rfl
  | .fn => rfl

theorem JsValue.beqList_refl : ∀ a : List JsValue, JsValue.beqList a a = true
  | [] => rfl
  | a :: as => by
      simp only [JsValue.beqList, Bool.and_eq_true]
      exact ⟨JsValue.beq_refl a, JsValue.beqList_refl as⟩

theorem JsValue.beqEntries_refl :
    ∀ a : List (String × JsValue), JsValue.beqEntries a a = true
  | [] => rfl
  | (k, v) :: as => by
      simp only [JsValue.beqEntries, Bool.and_eq_true]
      exact ⟨⟨by simp, JsValue.beq_refl v⟩, JsValue.beqEntries_refl as⟩

end

instance : DecidableEq JsValue := fun a b =>
  if h : JsValue.beq a b = true then
    isTrue (JsValue.beq_eq a b h)
  else
    isFalse (fun hab => h (hab ▸ JsValue.beq_refl a))

end Utils

namespace Utils

/-! ### The JSON round-trip (`JSON.parse(JSON.stringify(source))`)

`cloneObject` in the source performs `JSON.parse(JSON.stringify(source))`.
`JSON.stringify` / `JSON.parse` are host builtins (not part of the
repository), so we model the documented semantics of the composite
denotationally: members of an object whose value is not JSON-serializable
(`undefined`, functions) are dropped; non-serializable array elements become
`null`; a non-serializable top level makes `JSON.stringify` return
`undefined`, on which `JSON.parse` throws (modelled as `none`). -/

mutual

/-- Semantics of `JSON.parse(JSON.stringify v)` on a JavaScript value:
`none` means the round-trip throws (top-level `undefined` or function). -/
def jsonRoundTrip : JsValue → Option JsValue
  | .null => some .null
  | .bool b => some (.bool b)
  | .num n => some (.num n)
  | .str s => some (.str s)
  | .arr items => some (.arr (jsonRoundTripArr items))
  | .obj entries => some (.obj (jsonRoundTripEntries entries))
  | .undef => none
  | .fn => none

/-- Array elements whose value is not serializable are converted to `null`. -/
def jsonRoundTripArr : List JsValue → List JsValue
  | [] => []
  | v :: rest => (jsonRoundTrip v).getD .null :: jsonRoundTripArr rest

/-- Object members whose value is not serializable are dropped. -/
def jsonRoundTripEntries : List (String × JsValue) → List (String × JsValue)
  | [] => []
  | (k, v) :: rest =>
    match jsonRoundTrip v with
    | some v' => (k, v') :: jsonRoundTripEntries rest
    | none => jsonRoundTripEntries rest

end

mutual

/-- A value is JSON-representable when no `undefined` or function value
occurs anywhere inside it. -/
def JsValue.isJson : JsValue → Bool
  | .null => true
  | .bool _ => true
  | .num _ => true
  | .str _ => true
  | .arr items => JsValue.isJsonArr items
  | .obj entries => JsValue.isJsonEntries entries
  | .undef => false
  | .fn => false

def JsValue.isJsonArr : List JsValue → Bool
  | [] => true
  | v :: rest => JsValue.isJson v && JsValue.isJsonArr rest

def JsValue.isJsonEntries : List (String × JsValue) → Bool
  | [] => true
  | (_, v) :: rest => JsValue.isJson v && JsValue.isJsonEntries rest

end

/-- Embedding of `cloneObject` from the source: `JSON.parse(JSON.stringify(source))`. -/
def cloneObject (source : JsValue) : Option JsValue :=
  jsonRoundTrip source

mutual

theorem jsonRoundTrip_of_isJson :
    ∀ v : JsValue, v.isJson = true → jsonRoundTrip v = some v
  | .null, _ => rfl
  | .bool _, _ => rfl
  | .num _, _ => rfl
  | .str _, _ => rfl
  | .arr items, h => by
      simp only [jsonRoundTrip, Option.some.injEq, JsValue.arr.injEq]
      exact jsonRoundTripArr_of_isJson items h
  | .obj entries, h => by
      simp only [jsonRoundTrip, Option.some.injEq, JsValue.obj.injEq]
      exact jsonRoundTripEntries_of_isJson entries h

theorem jsonRoundTripArr_of_isJson :
    ∀ l : List JsValue, JsValue.isJsonArr l = true → jsonRoundTripArr l = l
  | [], _ => rfl
  | v :: rest, h => by
      simp only [JsValue.isJsonArr, Bool.and_eq_true] at h
      simp only [jsonRoundTripArr, jsonRoundTrip_of_isJson v h.1, Option.getD_some]
      rw [jsonRoundTripArr_of_isJson rest h.2]

theorem jsonRoundTripEntries_of_isJson :
    ∀ l : List (String × JsValue), JsValue.isJsonEntries l = true →
      jsonRoundTripEntries l = l
  | [], _ => rfl
  | (k, v) :: rest, h => by
      simp only [JsValue.isJsonEntries, Bool.and_eq_true] at h
      simp only [jsonRoundTripEntries, jsonRoundTrip_of_isJson v h.1]
      rw [jsonRoundTripEntries_of_isJson rest h.2]

end

/-! ### JavaScript string-keyed objects as association lists

A `Record<string, α>` is modelled as an association list in insertion
order (the host's enumeration order for string keys).  `recSet` is the
semantics of `result[k] = v`: an existing key keeps its position and has its
value replaced; a new key is appended.  `recLookup` is property read. -/

def recSet (m : List (String × α)) (k : String) (v : α) : List (String × α) :=
  match m with
  | [] => [(k, v)]
  | (k', v') :: rest => if k' = k then (k', v) :: rest else (k', v') :: recSet rest k v

def recLookup (m : List (String × α)) (k : String) : Option α :=
  match m with
  | [] => none
  | (k', v') :: rest => if k' = k then some v' else recLookup rest k

/-! ### Resolvable values and `resolve` -/

/-- Model of `Resolvable<T> = T | (() => T)`: with `T` itself never a function, so the
runtime `typeof resolvable === 'function'` test discriminates exactly the
producer case.  Modelled as a tagged union. -/
inductive Resolvable (T : Type u) where
  | value (v : T) : Resolvable T
  | producer (f : Unit → T) : Resolvable T

/-- Embedding of `resolve(resolvable)`: `typeof resolvable === 'function' ? resolvable() :
resolvable`. -/
def resolve {T : Type u} : Resolvable T → T
  | .value v => v
  | .producer f => f ()

/-! ### `formatArray` -/

/-- Embedding of `formatArray(items, formatter, prefix)`:
`items.map(item => pre + formatter(item)).join('')`.  The default
prefix argument of the source is `"\n  * "`; callers of this embedding pass
the prefix explicitly. -/
def formatArray {T : Type u} (items : List T) (formatter : T → String)
    (pre : String) : String :=
  String.join (items.map fun item => pre ++ formatter item)

/-! ### OpenAPI operations and parameters -/

/-- Parameter location kinds: `'header' | 'query' | 'path' | 'cookie'`. -/
inductive ParameterType where
  | header : ParameterType
  | query : ParameterType
  | path : ParameterType
  | cookie : ParameterType
deriving DecidableEq, Repr

/-- An entry of an operation's `parameters` list.  OpenAPI allows both
parameter objects and `$ref` reference objects here; the source
discriminates with `'in' in parameter`, so `location` (the `in` field) is
optional: `none` models an entry without an `in` field (e.g. a reference
object).  `required` and `schema` are optional fields of
`ParameterBaseObject`. -/
structure ParamEntry where
  name : String
  location : Option ParameterType
  required : Option Bool
  schema : Option JsValue
deriving DecidableEq, Repr

/-- An OpenAPI operation object, of which only the optional `parameters`
list is consumed (`{parameters = []}` destructuring: a missing field
defaults to the empty list). -/
structure OperationObject where
  parameters : Option (List ParamEntry)
deriving DecidableEq, Repr

/-- One iteration of the `getParameterMap` loop:
`if ('in' in parameter && parameter.in === type) result[parameter.name] = parameter`. -/
def getParameterMapStep (type : ParameterType) (result : List (String × ParamEntry))
    (parameter : ParamEntry) : List (String × ParamEntry) :=
  if parameter.location = some type then recSet result parameter.name parameter
  else result

/-- Embedding of `getParameterMap(operation, type)`: iterate over
`operation.parameters ?? []`; keep entries with `'in' in parameter &&
parameter.in === type`; build a record keyed by `parameter.name` via
JS assignment (`result[parameter.name] = parameter`). -/
def getParameterMap (operation : OperationObject) (type : ParameterType) :
    List (String × ParamEntry) :=
  (operation.parameters.getD []).foldl (getParameterMapStep type) []

/-- One iteration of the `getParametersSchema` loop over an entry
`(name, parameter)`: with `{required = false, schema = {}} = parameter`,
perform `result.properties[name] = schema` and, when `required`,
`result.required.push(name)`.  The accumulator is the mutable
(`required`, `properties`) part of the result object. -/
def getParametersSchemaStep (acc : List String × List (String × JsValue))
    (entry : String × ParamEntry) : List String × List (String × JsValue) :=
  let required := entry.2.required.getD false
  let schema := entry.2.schema.getD (.obj [])
  (if required then acc.1 ++ [entry.1] else acc.1, recSet acc.2 entry.1 schema)

/-- Embedding of `getParametersSchema(parameters)`: builds
`{type: 'object', required: [], properties: {}, additionalProperties: true}`,
runs the loop over `Object.entries(parameters)`, and returns the resulting
JS object. -/
def getParametersSchema (parameters : List (String × ParamEntry)) : JsValue :=
  let result := parameters.foldl getParametersSchemaStep ([], [])
  .obj [("type", .str "object"),
        ("required", .arr (result.1.map .str)),
        ("properties", .obj result.2),
        ("additionalProperties", .bool true)]

/-! ### `matchSchema` and the external validation engine -/

/-- A validation error record produced by the engine: a data path and a
mapping from parameter names to values (the shape consumed by
`formatValidationError`). -/
structure ErrorObject where
  dataPath : String
  params : List (String × JsValue)
deriving DecidableEq, Repr

/-- The external JSON-Schema validation engine
(`addFormats(new Ajv({...ajvOptions, coerceTypes: 'array'})).compile`):
given a schema it yields a validator which, run on a value, mutates it in
place applying coercions and reports a list of validation errors (`[]`
models Ajv leaving `validate.errors` null).  Mutation is made explicit: the
validator returns the post-coercion value together with the errors.  The
engine is a collaborator outside this repository, so `matchSchema` is
parameterized by it and every theorem below quantifies over engines. -/
def Engine : Type :=
  JsValue → JsValue → JsValue × List ErrorObject

/-- Embedding of `matchSchema(source, schema, errors)`:
`result = cloneObject(source)` (a JSON round-trip, which throws — `none` —
only when `JSON.stringify` yields no string, i.e. a non-serializable top
level); `validate = engine.compile(schema)`; `validate(result)` mutates
`result` in place; if `validate.errors` is non-null its entries are pushed
onto the caller's `errors`; `result` is returned.  The returned pair is
(returned value, `errors` as the caller observes it after the call). -/
def matchSchema (engine : Engine) (source : JsValue) (schema : JsValue)
    (errors : List ErrorObject) : Option (JsValue × List ErrorObject) :=
  match cloneObject source with
  | none => none
  | some result =>
    let validated := engine schema result
    some (validated.1, errors ++ validated.2)

/-- A trivial concrete engine (accepts everything, coerces nothing), used to
instantiate engine-generic statements at a concrete input. -/
def idEngine : Engine := fun _ value => (value, [])

/-! ### `mapObject` -/

/-- Embedding of `mapObject(obj, func)`:
`Object.fromEntries(Object.entries(obj).map(([k, v]) => [k, func(v, k, obj)]))`. -/
def mapObject {V W : Type u} (obj : List (String × V))
    (func : V → String → List (String × V) → W) : List (String × W) :=
  obj.map fun e => (e.1, func e.2 e.1 obj)

/-! ### One-or-many values, `transform` and `oneOrMany` -/

/-- Model of `OneOrMany<T> = T | Array<T>`: the runtime discriminates the two shapes
with `Array.isArray`, modelled as a tagged union. -/
inductive OneOrMany (T : Type u) where
  | one (v : T) : OneOrMany T
  | many (vs : List T) : OneOrMany T
deriving DecidableEq, Repr

/-- Embedding of `transform(value, func)`:
`Array.isArray(value) ? value.map(func) : func(value)`. -/
def transform {T U : Type u} (value : OneOrMany T) (func : T → U) : OneOrMany U :=
  match value with
  | .many vs => .many (vs.map func)
  | .one v => .one (func v)

/-- Embedding of `oneOrMany(func)`: the curried form,
`value => Array.isArray(value) ? value.map(func) : func(value)`. -/
def oneOrMany {T U : Type u} (func : T → U) : OneOrMany T → OneOrMany U :=
  fun value =>
    match value with
    | .many vs => .many (vs.map func)
    | .one v => .one (func v)

/-! ### `inRange` -/

/-- Embedding of `inRange(min, max)`: `value => value >= min && value < max`.
JavaScript numbers are modelled by integers. -/
def inRange (min max : Int) : Int → Bool :=
  fun value => decide (value ≥ min) && decide (value < max)

/-! ### Helper lemmas about records and folds -/

theorem recLookup_recSet (m : List (String × α)) (k q : String) (v : α) :
    recLookup (recSet m k v) q = if k = q then some v else recLookup m q := by
  induction m with
  | nil => simp [recSet, recLookup]
  | cons e rest ih =>
    obtain ⟨k₀, v₀⟩ := e
    by_cases h₀ : k₀ = k
    · subst h₀
      simp only [recSet, if_pos rfl, recLookup]
      by_cases hq : k₀ = q <;> simp [hq]
    · simp only [recSet, if_neg h₀, recLookup]
      by_cases hq : k₀ = q
      · have hkq : ¬ (k = q) := fun h => h₀ (hq.trans h.symm)
        simp [hq, hkq]
      · simp [hq, ih]

theorem recSet_of_not_mem (m : List (String × α)) (k : String) (v : α)
    (h : k ∉ m.map Prod.fst) : recSet m k v = m ++ [(k, v)] := by
  induction m with
  | nil => rfl
  | cons e rest ih =>
    simp only [List.map_cons, List.mem_cons, not_or] at h
    have hne : e.1 ≠ k := fun hk => h.1 hk.symm
    obtain ⟨k₀, v₀⟩ := e
    simp only [recSet, if_neg hne, List.cons_append, List.cons.injEq, true_and]
    exact ih h.2

theorem optGetLast_cons (a : α) (l : List α) :
    (a :: l).getLast? = l.getLast?.or (some a) := by
  induction l generalizing a with
  | nil => rfl
  | cons b rest ih =>
    rw [List.getLast?_cons_cons, ih b]
    cases rest.getLast? <;> rfl

theorem getParameterMap_foldl (t : ParameterType) (q : String)
    (ps : List ParamEntry) (acc : List (String × ParamEntry)) :
    recLookup (ps.foldl (getParameterMapStep t) acc) q =
      ((ps.filter fun p => decide (p.location = some t) && decide (p.name = q)).getLast?).or
        (recLookup acc q) := by
  induction ps generalizing acc with
  | nil => rfl
  | cons p rest ih =>
    simp only [List.foldl_cons, List.filter_cons, ih, getParameterMapStep]
    by_cases hloc : p.location = some t
    · rw [if_pos hloc, recLookup_recSet]
      by_cases hname : p.name = q
      · have hc : (decide (p.location = some t) && decide (p.name = q)) = true := by
          simp [hloc, hname]
        rw [if_pos hname, if_pos hc, optGetLast_cons, Option.or_assoc]
        rfl
      · have hc : (decide (p.location = some t) && decide (p.name = q)) = false := by
          simp [hname]
        rw [if_neg hname]
        simp only [hc, Bool.false_eq_true, if_false]
    · have hc : (decide (p.location = some t) && decide (p.name = q)) = false := by
        simp [hloc]
      rw [if_neg hloc]
      simp only [hc, Bool.false_eq_true, if_false]

theorem getParametersSchema_foldl (ps : List (String × ParamEntry)) :
    ∀ (req₀ : List String) (props₀ : List (String × JsValue)),
      (∀ e ∈ ps, e.1 ∉ props₀.map Prod.fst) → (ps.map Prod.fst).Nodup →
      ps.foldl getParametersSchemaStep (req₀, props₀) =
        (req₀ ++ (ps.filter fun e => e.2.required.getD false).map Prod.fst,
         props₀ ++ ps.map fun e => (e.1, e.2.schema.getD (.obj []))) := by
  induction ps with
  | nil => intro req₀ props₀ _ _; simp
  | cons e rest ih =>
    intro req₀ props₀ hdisj hnodup
    simp only [List.map_cons, List.nodup_cons] at hnodup
    have he : e.1 ∉ props₀.map Prod.fst := hdisj e (List.mem_cons_self e rest)
    simp only [List.foldl_cons, List.filter_cons, List.map_cons]
    rw [show getParametersSchemaStep (req₀, props₀) e =
        ((if e.2.required.getD false then req₀ ++ [e.1] else req₀),
         props₀ ++ [(e.1, e.2.schema.getD (.obj []))]) from by
      simp only [getParametersSchemaStep]
      rw [recSet_of_not_mem _ _ _ he]]
    rw [ih _ _ ?_ hnodup.2]
    · simp only [Prod.mk.injEq]
      refine ⟨?_, by simp⟩
      by_cases hreq : e.2.required.getD false = true <;>
        simp [hreq]
    · intro e' he'
      simp only [List.map_append, List.map_cons, List.map_nil, List.mem_append,
        List.mem_singleton, not_or]
      refine ⟨hdisj e' (List.mem_cons_of_mem e he'), ?_⟩
      intro hEq
      exact hnodup.1 (hEq ▸ List.mem_map_of_mem Prod.fst he')

theorem mapObject_mapLookup {V W : Type u} (obj l : List (String × V))
    (func : V → String → List (String × V) → W) (k : String) :
    recLookup (l.map fun e => (e.1, func e.2 e.1 obj)) k =
      (recLookup l k).map fun v => func v k obj := by
  induction l with
  | nil => rfl
  | cons e rest ih =>
    simp only [List.map_cons, recLookup]
    by_cases hk : e.1 = k
    · simp [hk]
    · simp [hk, ih]

theorem joinCons (a : String) (l : List String) :
    String.join (a :: l) = a ++ String.join l := by
  apply String.ext
  simp [String.join_eq, String.data_append]

/-! ### Claims -/

/-- C1: `matchSchema(source, schema, errors)` never mutates the caller's
`source`: validation and type coercion are applied only to a deep copy of
`source` made via a JSON round-trip.  In the embedding the engine's in-place
mutation is explicit (it returns the post-coercion value), and `matchSchema`
feeds it `cloneObject source`, never `source`; the theorem certifies that
for a JSON-representable source the round-trip copy is identical to
`source` itself, so the call's result is the engine applied to that copy
and the (immutable) `source` is the same before and after the call. -/
theorem matchSchema_source_unchanged (engine : Engine) (source schema : JsValue)
    (errors : List ErrorObject) (h : source.isJson = true) :
    cloneObject source = some source ∧
    matchSchema engine source schema errors =
      some ((engine schema source).1, errors ++ (engine schema source).2) := by
  have hc : cloneObject source = some source := jsonRoundTrip_of_isJson source h
  exact ⟨hc, by simp [matchSchema, hc]⟩

theorem matchSchema_source_unchanged_witness :
    (JsValue.obj [("a", JsValue.num 1)]).isJson = true ∧
    (cloneObject (JsValue.obj [("a", JsValue.num 1)]) =
        some (JsValue.obj [("a", JsValue.num 1)]) ∧
      matchSchema idEngine (JsValue.obj [("a", JsValue.num 1)]) (JsValue.obj []) [] =
        some ((idEngine (JsValue.obj []) (JsValue.obj [("a", JsValue.num 1)])).1,
          [] ++ (idEngine (JsValue.obj []) (JsValue.obj [("a", JsValue.num 1)])).2)) :=
  ⟨by decide, matchSchema_source_unchanged idEngine (JsValue.obj [("a", JsValue.num 1)])
    (JsValue.obj []) [] (by decide)⟩

/-- C2 counterexample: `matchSchema` does not return a value for every
source.  At the concrete input `source = undefined` (with any engine,
schema `{}` and empty `errors`), `JSON.stringify(source)` yields no string
and `JSON.parse` throws, so the call signals a failure instead of
returning — modelled by `none`. -/
theorem matchSchema_undefined_throws :
    matchSchema idEngine JsValue.undef (JsValue.obj []) [] = none := rfl

/-- C2 (amended): for every source other than a top-level `undefined` or
function value — in particular for every source object — `matchSchema`
always returns a value and never signals validation failure by throwing:
failures are reported solely by appending error records to the
caller-supplied `errors`, and entries already present are preserved
unchanged (append-only). -/
theorem matchSchema_total_append (engine : Engine) (source schema : JsValue)
    (errors : List ErrorObject) (h1 : source ≠ JsValue.undef) (h2 : source ≠ JsValue.fn) :
    ∃ result newErrors,
      matchSchema engine source schema errors = some (result, errors ++ newErrors) := by
  cases source with
  | undef => exact absurd rfl h1
  | fn => exact absurd rfl h2
  | null => exact ⟨_, _, rfl⟩
  | bool b => exact ⟨_, _, rfl⟩
  | num n => exact ⟨_, _, rfl⟩
  | str s => exact ⟨_, _, rfl⟩
  | arr items => exact ⟨_, _, rfl⟩
  | obj entries => exact ⟨_, _, rfl⟩

theorem matchSchema_total_append_witness :
    JsValue.obj [] ≠ JsValue.undef ∧ JsValue.obj [] ≠ JsValue.fn ∧
    ∃ result newErrors,
      matchSchema idEngine (JsValue.obj []) (JsValue.obj []) [⟨"/x", []⟩] =
        some (result, [⟨"/x", []⟩] ++ newErrors) :=
  ⟨by decide, by decide,
    matchSchema_total_append idEngine (JsValue.obj []) (JsValue.obj []) [⟨"/x", []⟩]
      (by decide) (by decide)⟩

/-- C3: `getParameterMap(operation, t)` maps a name to exactly the
last-listed parameter of `operation.parameters ?? []` whose `in` field is
`t` and whose `name` is that name; in particular a name is present exactly
when such a parameter exists, entries without an `in` field are excluded
unconditionally, and on duplicate names the later-listed parameter wins. -/
theorem getParameterMap_spec (operation : OperationObject) (t : ParameterType) (q : String) :
    recLookup (getParameterMap operation t) q =
      ((operation.parameters.getD []).filter
        (fun p => decide (p.location = some t) && decide (p.name = q))).getLast? := by
  rw [getParameterMap, getParameterMap_foldl]
  cases ((operation.parameters.getD []).filter
    (fun p => decide (p.location = some t) && decide (p.name = q))).getLast? <;> rfl

/-- C4: for a parameter map (unique names), `getParametersSchema` returns
`{type: 'object', ...}` with `additionalProperties: true`, `properties`
mapping each name to the parameter's declared schema (empty object when
undeclared), and `required` listing exactly the names whose `required`
field is true (absent defaulting to false), in iteration order. -/
theorem getParametersSchema_spec (ps : List (String × ParamEntry))
    (h : (ps.map Prod.fst).Nodup) :
    getParametersSchema ps = JsValue.obj
      [("type", JsValue.str "object"),
       ("required", JsValue.arr
         ((ps.filter fun e => e.2.required.getD false).map fun e => JsValue.str e.1)),
       ("properties", JsValue.obj
         (ps.map fun e => (e.1, e.2.schema.getD (JsValue.obj [])))),
       ("additionalProperties", JsValue.bool true)] := by
  simp only [getParametersSchema]
  rw [getParametersSchema_foldl ps [] [] (by simp) h]
  simp [List.map_map, Function.comp]

theorem getParametersSchema_spec_witness :
    ((([("id", ParamEntry.mk "id" (some .query) (some true)
          (some (JsValue.obj [("type", JsValue.str "string")]))),
        ("age", ParamEntry.mk "age" (some .query) (some false)
          (some (JsValue.obj [("type", JsValue.str "integer")])))] :
        List (String × ParamEntry)).map Prod.fst).Nodup) ∧
    getParametersSchema
      [("id", ParamEntry.mk "id" (some .query) (some true)
          (some (JsValue.obj [("type", JsValue.str "string")]))),
       ("age", ParamEntry.mk "age" (some .query) (some false)
          (some (JsValue.obj [("type", JsValue.str "integer")])))] =
      JsValue.obj
        [("type", JsValue.str "object"),
         ("required", JsValue.arr [JsValue.str "id"]),
         ("properties", JsValue.obj
           [("id", JsValue.obj [("type", JsValue.str "string")]),
            ("age", JsValue.obj [("type", JsValue.str "integer")])]),
         ("additionalProperties", JsValue.bool true)] :=
  ⟨by decide, (getParametersSchema_spec _ (by decide)).trans (by decide)⟩

/-- C5: `resolve` applied to a zero-argument producer `p` gives `p()`, and
applied to a plain (non-callable) value `v` gives `v` unchanged. -/
theorem resolve_spec {T : Type u} (p : Unit → T) (v : T) :
    resolve (Resolvable.producer p) = p () ∧ resolve (Resolvable.value v) = v :=
  ⟨rfl, rfl⟩

/-- C6: `transform(value, func)` and `oneOrMany(func)(value)` agree on
every input; on an ordered sequence both apply `func` elementwise
preserving order and length, and on a single value both apply `func` to
it. -/
theorem transform_oneOrMany_spec {T U : Type u} (func : T → U) :
    (∀ value : OneOrMany T, transform value func = oneOrMany func value) ∧
    (∀ vs : List T,
      transform (OneOrMany.many vs) func = OneOrMany.many (vs.map func) ∧
      (vs.map func).length = vs.length ∧
      ∀ i : Nat, (vs.map func)[i]? = (vs[i]?).map func) ∧
    (∀ v : T, transform (OneOrMany.one v) func = OneOrMany.one (func v)) := by
  refine ⟨fun value => ?_, fun vs => ⟨rfl, by simp, fun i => by simp⟩, fun v => rfl⟩
  cases value <;> rfl

/-- C7: `inRange(min, max)` returns the predicate
`value => min <= value < max` (inclusive lower bound, exclusive upper
bound); when `min >= max` the predicate is false on every input. -/
theorem inRange_spec (min max value : Int) :
    (inRange min max value = true ↔ min ≤ value ∧ value < max) ∧
    (max ≤ min → inRange min max value = false) := by
  constructor
  · simp [inRange, ge_iff_le]
  · intro h
    simp only [inRange, Bool.and_eq_false_iff, decide_eq_false_iff_not, not_lt, ge_iff_le, not_le]
    omega

theorem inRange_spec_witness :
    (inRange 0 10 0 = true ↔ (0 : Int) ≤ 0 ∧ (0 : Int) < 10) ∧
    (3 : Int) ≤ 5 ∧ inRange 5 3 7 = false :=
  ⟨(inRange_spec 0 10 0).1, by decide, (inRange_spec 5 3 7).2 (by decide)⟩

/-- C8: `formatArray(items, formatter, pre)` concatenates, over the items
in input order, `pre` followed by `formatter(item)`; the empty sequence
yields the empty string. -/
theorem formatArray_spec {T : Type u} (items : List T) (formatter : T → String)
    (pre : String) :
    formatArray items formatter pre =
      items.foldr (fun item acc => pre ++ formatter item ++ acc) "" ∧
    formatArray ([] : List T) formatter pre = "" := by
  refine ⟨?_, rfl⟩
  induction items with
  | nil => rfl
  | cons i rest ih =>
    rw [List.foldr_cons, ← ih]
    show String.join (List.map _ (i :: rest)) = _
    rw [List.map_cons, joinCons]
    rfl

/-- C9: `mapObject(obj, func)` returns a mapping with exactly the same keys
whose value at each key `k` is `func(obj[k], k, obj)`; the input mapping is
left unchanged (in the embedding all values are immutable and `mapObject`
builds a fresh list). -/
theorem mapObject_spec {V W : Type u} (obj : List (String × V))
    (func : V → String → List (String × V) → W) :
    (mapObject obj func).map Prod.fst = obj.map Prod.fst ∧
    ∀ k, recLookup (mapObject obj func) k = (recLookup obj k).map fun v => func v k obj := by
  refine ⟨?_, fun k => mapObject_mapLookup obj obj func k⟩
  simp [mapObject, List.map_map, Function.comp]

/-- C10: `getParametersSchema` always emits all four keys — `type: 'object'`
and `additionalProperties: true` unconditionally, `required` as a possibly
empty list and `properties` as a possibly empty mapping — and on the empty
map it is exactly
`{type: 'object', required: [], properties: {}, additionalProperties: true}`. -/
theorem getParametersSchema_shape (ps : List (String × ParamEntry)) :
    (∃ (req : List JsValue) (props : List (String × JsValue)),
      getParametersSchema ps = JsValue.obj
        [("type", JsValue.str "object"), ("required", JsValue.arr req),
         ("properties", JsValue.obj props), ("additionalProperties", JsValue.bool true)]) ∧
    getParametersSchema [] = JsValue.obj
      [("type", JsValue.str "object"), ("required", JsValue.arr []),
       ("properties", JsValue.obj []), ("additionalProperties", JsValue.bool true)] :=
  ⟨⟨_, _, rfl⟩, rfl⟩

end Utils
